import Mathlib

/-!
Verification of the Savior backup engine's specification against a shallow
embedding of its Python source (src/savior). Each section embeds the data
model and operations of one source module; the claim theorems follow at the
end of the file.
-/

namespace Savior

/-! ### Association-list helpers

Python dictionaries keyed by strings (the dedup index, the file-state index,
metadata documents) are embedded as association lists with string keys.
-/

/-- Lookup in an association list (first match wins, like a Python dict). -/
def lookupStr {β : Type} : List (String × β) → String → Option β
  | [], _ => none
  | (k, v) :: rest, h => if k = h then some v else lookupStr rest h

/-- Update the value stored under a key, if present (Python dict item write
for an existing key). -/
def updateStr {β : Type} : List (String × β) → String → β → List (String × β)
  | [], _, _ => []
  | (k, v) :: rest, h, v' =>
    if k = h then (k, v') :: rest else (k, v) :: updateStr rest h v'

/-- Insert-or-update under a key (Python dict item write). -/
def setStr {β : Type} (l : List (String × β)) (h : String) (v : β) :
    List (String × β) :=
  match lookupStr l h with
  | some _ => updateStr l h v
  | none => l ++ [(h, v)]

/-- Remove every binding of a key (Python `del d[k]`, keys are unique). -/
def removeStr {β : Type} : List (String × β) → String → List (String × β)
  | [], _ => []
  | (k, v) :: rest, h =>
    if k = h then removeStr rest h else (k, v) :: removeStr rest h

/-! ### Smart deduplication policy — src/savior/dedup.py, SmartDeduplicator -/

/-- `SmartDeduplicator.SKIP_DEDUP_EXTENSIONS`: extensions excluded from
content-store deduplication (compressed archives, media, binaries,
databases). -/
def SKIP_DEDUP_EXTENSIONS : List String :=
  [".zip", ".gz", ".bz2", ".xz", ".7z", ".rar",
   ".jpg", ".jpeg", ".png", ".gif", ".webp",
   ".mp3", ".mp4", ".avi", ".mkv", ".mov",
   ".pdf",
   ".exe", ".dll", ".so", ".dylib",
   ".db", ".sqlite", ".mdb"]

/-- `SmartDeduplicator.MIN_DEDUP_SIZE`: minimum size for deduplication. -/
def MIN_DEDUP_SIZE : Nat := 1024

/-- A file as seen by `should_deduplicate`: its on-disk size and its
`Path.suffix` (the extension, including the leading dot, or empty). -/
structure FileMeta where
  size : Nat
  suffix : String
deriving Repr, DecidableEq

/-- `SmartDeduplicator.should_deduplicate`: skip files smaller than
`MIN_DEDUP_SIZE`, skip extensions in the skip set (lower-cased),
deduplicate everything else. -/
def should_deduplicate (f : FileMeta) : Bool :=
  if f.size < MIN_DEDUP_SIZE then
    false
  else if f.suffix.toLower ∈ SKIP_DEDUP_EXTENSIONS then
    false
  else
    true

/-! ### Daemon IPC authentication — src/savior/daemon.py, _handle_client -/

/-- A parsed IPC request: the `auth` token field (absent when the JSON
object has no such key) and the command `type`. -/
structure IpcRequest where
  auth : Option String
  cmdType : Option String
deriving Repr, DecidableEq

/-- An IPC response document. -/
inductive IpcResponse where
  | error (msg : String)
  | payload (data : String)
deriving Repr, DecidableEq

/-- `SaviorDaemon._handle_client`, after a request has been received and
parsed: if `command.get('auth') != self.auth_token` the daemon answers
`{'error': 'Authentication failed'}`; otherwise it dispatches the request
to `_process_command` (abstracted here as the function argument, so that
independence from the dispatcher can be stated). -/
def handle_client (process_command : IpcRequest → IpcResponse) (auth_token : String)
    (req : IpcRequest) : IpcResponse :=
  if req.auth ≠ some auth_token then
    IpcResponse.error "Authentication failed"
  else
    process_command req

/-! ### Incremental differ — src/savior/incremental.py, IncrementalBackup

`IncrementalBackup.__init__` assigns only `backup_dir`, `state_file` and
`file_states`; the attribute `project_dir` consulted by
`find_changed_files` is never assigned anywhere in the repository, so it is
embedded as an `Option` that the constructor leaves at `none` (a Python
attribute read of a missing attribute raises `AttributeError`, which the
per-file `except Exception: pass` swallows).
-/

/-- A candidate file passed to `find_changed_files`: its absolute path
(as components) and its content hash. -/
structure IncFile where
  path : List String
  hash : String
deriving Repr, DecidableEq

/-- The state held by an `IncrementalBackup` object. -/
structure IncState where
  project_dir : Option (List String)
  file_states : List (String × String)
deriving Repr, DecidableEq

/-- `IncrementalBackup.__init__`: loads the persisted file states and sets
nothing else; in particular `project_dir` stays unset. -/
def incremental_init (states : List (String × String)) : IncState :=
  { project_dir := none, file_states := states }

/-- Whether `base` is an initial segment of `p` (path containment). -/
def isLeadSegment : List String → List String → Bool
  | [], _ => true
  | _ :: _, [] => false
  | b :: bs, c :: cs => if b = c then isLeadSegment bs cs else false

/-- `Path.relative_to`: drop the base directory from an absolute path, or
fail (`ValueError`) when the path is not under the base. -/
def relativeTo (p : List String) (base : List String) : Option (List String) :=
  if isLeadSegment base p then some (p.drop base.length) else none

/-- Join relative-path components with the path separator, as `str(Path)`
renders a relative path. -/
def joinPath (p : List String) : String :=
  String.intercalate "/" p

/-- One iteration of the `for file_path in files` loop of
`find_changed_files`; any exception (the `AttributeError` from the missing
`project_dir`, or the `ValueError` from `relative_to`) leaves the
accumulator unchanged (`except Exception: pass`). -/
def find_changed_step (st : IncState)
    (acc : List IncFile × List IncFile × List (String × String)) (f : IncFile) :
    List IncFile × List IncFile × List (String × String) :=
  match st.project_dir with
  | none => acc
  | some d =>
    match relativeTo f.path d with
    | none => acc
    | some rel =>
      let relKey := joinPath rel
      let current := setStr acc.2.2 relKey f.hash
      match lookupStr st.file_states relKey with
      | none => (acc.1 ++ [f], acc.2.1, current)
      | some h =>
        if h ≠ f.hash then (acc.1, acc.2.1 ++ [f], current)
        else (acc.1, acc.2.1, current)

/-- `IncrementalBackup.find_changed_files`: classify the given files
against the file-state index, compute the deleted keys, and replace the
index wholesale. Returns (added, modified, deleted keys, new state). -/
def find_changed_files (st : IncState) (files : List IncFile) :
    List IncFile × List IncFile × List String × IncState :=
  let acc := files.foldl (find_changed_step st) ([], [], [])
  let current := acc.2.2
  let deleted :=
    (st.file_states.map Prod.fst).filter
      (fun k => !(current.map Prod.fst).contains k)
  (acc.1, acc.2.1, deleted, { st with file_states := current })

/-! ### Index persistence — src/savior/dedup.py `_save_index`/`_save_stats`
and src/savior/core.py `Savior._save_metadata`

The on-disk state is embedded as a map from file name to content, and each
save routine as the list of intermediate filesystem states it produces.
`DeduplicationStore._save_index` and `_save_stats` open their target with
mode `w` (truncate) and then write; `Savior._save_metadata` writes a
temporary file and then `os.replace`s it over the target.
-/

/-- Files on disk: name to content. -/
structure FsState where
  files : List (String × String)
deriving Repr, DecidableEq

/-- Writing a file: truncate-or-create then fill with `content`. -/
def fsWrite (fs : FsState) (name content : String) : FsState :=
  { files := setStr fs.files name content }

/-- `os.replace`: atomically rename `src` over `dst`. -/
def fsRename (fs : FsState) (src dst : String) : FsState :=
  match lookupStr fs.files src with
  | none => fs
  | some c => { files := setStr (removeStr fs.files src) dst c }

/-- Read a file's content, if present. -/
def fsRead (fs : FsState) (name : String) : Option String :=
  lookupStr fs.files name

/-- `DeduplicationStore._save_index`: `open(self.index_file, 'w')` truncates
the index file in place, then `json.dump` fills it — the intermediate
truncated state is visible on disk. -/
def save_index_trace (fs : FsState) (content : String) : List FsState :=
  [fsWrite fs "index.json" "",
   fsWrite (fsWrite fs "index.json" "") "index.json" content]

/-- `DeduplicationStore._save_stats`: same in-place pattern on the stats
document. -/
def save_stats_trace (fs : FsState) (content : String) : List FsState :=
  [fsWrite fs "stats.json" "",
   fsWrite (fsWrite fs "stats.json" "") "stats.json" content]

/-- `Savior._save_metadata`: `tempfile.mkstemp` in the backup dir, write the
document to the temporary file, then `os.replace` it over
`metadata.json`. -/
def save_metadata_trace (fs : FsState) (content : String) : List FsState :=
  [fsWrite fs ".metadata_tmp" "",
   fsWrite (fsWrite fs ".metadata_tmp" "") ".metadata_tmp" content,
   fsRename (fsWrite (fsWrite fs ".metadata_tmp" "") ".metadata_tmp" content)
     ".metadata_tmp" "metadata.json"]

/-! ### String primitives

Structural re-implementations of the Python string operations the embedded
code uses (`startswith`, `'..' in s`, `s.split('/')`, slicing off the last
character), defined by recursion on the character list so that concrete
evaluations reduce in the kernel.
-/

/-- Whether the first list leads the second (character-wise). -/
def charsLead : List Char → List Char → Bool
  | [], _ => true
  | _ :: _, [] => false
  | p :: ps, c :: cs => if p = c then charsLead ps cs else false

/-- Python `s.startswith(pre)`. -/
def strStartsWith (s pre : String) : Bool :=
  charsLead pre.data s.data

/-- Python `s.endswith(suf)`. -/
def strEndsWith (s suf : String) : Bool :=
  charsLead suf.data.reverse s.data.reverse

/-- Python `s[:-1]`. -/
def dropLastChar (s : String) : String :=
  String.mk s.data.dropLast

/-- Two consecutive dots somewhere in the character list. -/
def charsContainDotDot : List Char → Bool
  | '.' :: '.' :: _ => true
  | _ :: rest => charsContainDotDot rest
  | [] => false

/-- Python `'..' in s`. -/
def containsDotDot (s : String) : Bool :=
  charsContainDotDot s.data

/-- Helper for `splitPath`: split on `/`, accumulating the current
component in reverse. -/
def splitPathChars : List Char → List Char → List String
  | [], acc => [String.mk acc.reverse]
  | c :: rest, acc =>
    if c = '/' then String.mk acc.reverse :: splitPathChars rest []
    else splitPathChars rest (c :: acc)

/-- Python `s.split('/')`. -/
def splitPath (s : String) : List String :=
  splitPathChars s.data []

/-! ### Archive extraction — src/savior/safety.py `safe_extract` and
src/savior/incremental.py `restore_incremental`

An archive is a list of tar members; extraction is embedded as the list of
filesystem paths written, each obtained by joining the member name onto the
extraction directory with `.`/`..` resolution (what an unfiltered
`tar.extractall` does to a traversal member name).
-/

/-- A tar archive member. -/
structure TarMember where
  name : String
  size : Nat
  isSym : Bool
  linkname : String
deriving Repr, DecidableEq

/-- `safe_extract`'s per-member name check: absolute path or a `..`
substring. -/
def memberNameUnsafe (m : TarMember) : Bool :=
  strStartsWith m.name "/" || containsDotDot m.name

/-- `safe_extract`'s per-member link check. -/
def memberLinkUnsafe (m : TarMember) : Bool :=
  m.isSym && (strStartsWith m.linkname "/" || containsDotDot m.linkname)

/-- Where a member name lands when extracted into `target`: path components
are appended one by one, `..` pops, `.` and empty components are ignored. -/
def resolvePath (target : List String) (name : String) : List String :=
  (splitPath name).foldl
    (fun acc c =>
      if c = ".." then acc.dropLast
      else if c = "." ∨ c = "" then acc
      else acc ++ [c])
    target

/-- Result of an extraction: the written paths, or an abort message. -/
inductive ExtractResult where
  | ok (writes : List (List String))
  | err (msg : String)
deriving Repr, DecidableEq

/-- The member-validation loop of `SafeFileOperations.safe_extract`:
accumulate sizes and return the first failure message, if any. -/
def safe_extract_check : List TarMember → Nat → Nat → Option String
  | [], _, _ => none
  | m :: rest, total, maxSize =>
    let total := total + m.size
    if memberNameUnsafe m then some ("Unsafe path in archive: " ++ m.name)
    else if memberLinkUnsafe m then some ("Unsafe link in archive: " ++ m.linkname)
    else if maxSize < total then some "Archive too large"
    else safe_extract_check rest total maxSize

/-- `SafeFileOperations.safe_extract`: validate every member first; only
when all pass, extract them all (with the data filter) into `target`. -/
def safe_extract (members : List TarMember) (target : List String)
    (maxSize : Nat) : ExtractResult :=
  match safe_extract_check members 0 maxSize with
  | some msg => ExtractResult.err msg
  | none => ExtractResult.ok (members.map (fun m => resolvePath target m.name))

/-- An unfiltered `tar.extractall(target)`: every member is written at its
resolved path, with no validation at all. -/
def extractall_unfiltered (members : List TarMember) (target : List String) :
    List (List String) :=
  members.map (fun m => resolvePath target m.name)

/-- `IncrementalBackup.restore_incremental`, first step: the base backup is
extracted into the target directory by a bare `tar.extractall(target_dir)`
with no member validation and no filter. -/
def restore_incremental_base_writes (base_members : List TarMember)
    (target : List String) : List (List String) :=
  extractall_unfiltered base_members target

/-! ### Ignore engine and file collection — src/savior/core.py,
SaviorIgnore and Savior._collect_files

`fnmatch.fnmatch` is kept abstract (a function parameter): the claims
proved below hold for every matcher. Relative paths are embedded as
component lists; `os.walk` with directory pruning is embedded by its
denotation: a file is collected iff every ancestor directory of its
relative path survives the directory filter and the file itself survives
the file filter.
-/

/-- `SaviorIgnore._load_ignore_patterns`: the baseline patterns (always
including `.savior/`), then `.git/` if requested, then the extra patterns,
then the non-empty non-comment lines of the ignore file (when it exists),
stripped. -/
def load_ignore_patterns (ignoreFileLines : Option (List String))
    (exclude_git : Bool) (extra_patterns : List String) : List String :=
  let patterns := [".savior/", "__pycache__/", "*.pyc", ".DS_Store"]
  let patterns := patterns ++ (if exclude_git then [".git/"] else [])
  let patterns := patterns ++ extra_patterns
  match ignoreFileLines with
  | none => patterns
  | some lines =>
    patterns ++
      ((lines.map String.trim).filter fun l => !(l = "") && !(strStartsWith l "#"))

/-- `os.path.basename` of a relative path given as components. -/
def basename (path : List String) : String :=
  (path.getLast?).getD ""

/-- `SaviorIgnore.should_ignore`: a path is ignored when some pattern
fnmatch-matches the whole path or its basename, or ends in `/` and names
one of the path's components. -/
def should_ignore (fnmatchFn : String → String → Bool) (patterns : List String)
    (path : List String) : Bool :=
  patterns.any fun pattern =>
    fnmatchFn (joinPath path) pattern ||
    fnmatchFn (basename path) pattern ||
    (strEndsWith pattern "/" && decide (dropLastChar pattern ∈ path))

/-- The ancestor directories of a relative path (every proper non-empty
lead segment). -/
def ancestorDirs : List String → List (List String)
  | [] => []
  | [_] => []
  | c :: rest => [c] :: (ancestorDirs rest).map (fun p => c :: p)

/-- `Savior._collect_files`: walk the project tree pruning ignored
directories, and keep every non-ignored, readable file smaller than
100 MiB. Candidate files are given by relative path components and size. -/
def collect_files (fnmatchFn : String → String → Bool) (patterns : List String)
    (files : List (List String × Nat)) : List (List String) :=
  (files.filter fun f =>
      (ancestorDirs f.1).all (fun d => !(should_ignore fnmatchFn patterns d)) &&
      !(should_ignore fnmatchFn patterns f.1) &&
      decide (f.2 < 104857600)).map Prod.fst

/-! ### Restore cleanup and conflict detection — src/savior/core.py
`restore_backup` (cleanup pass) and src/savior/conflicts.py
`ConflictDetector.detect_file_conflicts`

`Path(root).parts` of a walked directory is the project directory's own
components (`projParts`) followed by the relative directory components.
-/

/-- Generic association-list lookup (Python dict keyed by `Path`). -/
def lookupKey {α β : Type} [DecidableEq α] : List (α × β) → α → Option β
  | [], _ => none
  | (k, v) :: rest, h => if k = h then some v else lookupKey rest h

/-- `str(rel_path).startswith('.savior')` for a relative path given as
components: the first component carries the `.savior` character lead. -/
def relStartsWithSavior (p : List String) : Bool :=
  match p with
  | [] => false
  | c :: _ => strStartsWith c ".savior"

/-- The cleanup pass of `Savior.restore_backup`: walking the working tree,
skipping every directory whose `Path(root).parts` contain `.savior`, a file
is unlinked when it is absent from the backup and its relative path does
not start with `.savior`. Returns the set of unlinked relative paths. -/
def restore_unlink_set (projParts : List String) (working : List (List String))
    (backup_paths : List (List String)) : List (List String) :=
  working.filter fun p =>
    !(decide (".savior" ∈ projParts ++ p.dropLast)) &&
    !(decide (p ∈ backup_paths)) &&
    !(relStartsWithSavior p)

/-- Metadata of a working-tree file as `detect_file_conflicts` records
it. -/
structure CurMeta where
  hash : String
  mode : Nat
deriving Repr, DecidableEq

/-- Metadata of a backup file (`backup_meta.get(...)` fields may be
absent). -/
structure BakMeta where
  hash : Option String
  mode : Option Nat
deriving Repr, DecidableEq

/-- The four conflict classes `detect_file_conflicts` produces. -/
structure ConflictSets where
  modified : List (List String)
  permission : List (List String)
  deleted : List (List String)
  newFiles : List (List String)
deriving Repr, DecidableEq

/-- `ConflictDetector.detect_file_conflicts`: scan the working tree
(skipping every root whose parts contain `.savior`), then classify each
backup path as modified (hash differs from `backup_meta.get('hash', '')`),
permission-changed (mode differs from `backup_meta.get('mode', current)`),
or deleted (absent from the current scan); current paths absent from the
backup are new files. -/
def detect_file_conflicts (projParts : List String)
    (current : List (List String × CurMeta))
    (backup : List (List String × BakMeta)) : ConflictSets :=
  let current_files :=
    current.filter fun f => !(decide (".savior" ∈ projParts ++ f.1.dropLast))
  let modified :=
    (backup.filter fun b =>
      match lookupKey current_files b.1 with
      | some c => decide (c.hash ≠ b.2.hash.getD "")
      | none => false).map Prod.fst
  let permission :=
    (backup.filter fun b =>
      match lookupKey current_files b.1 with
      | some c => decide (c.mode ≠ b.2.mode.getD c.mode)
      | none => false).map Prod.fst
  let deleted :=
    (backup.filter fun b => (lookupKey current_files b.1).isNone).map Prod.fst
  let newFiles :=
    (current_files.filter fun c => (lookupKey backup c.1).isNone).map Prod.fst
  ⟨modified, permission, deleted, newFiles⟩

/-! ### Full backup and restore — src/savior/core.py `create_backup` /
`restore_backup`

A tar archive is embedded as its relative-path → content entries plus
whether it was written gzip-compressed. `create_backup` writes mode `w`
(plain tar, extension `.tar`) at compression level 0 and mode `w:gz`
otherwise; `restore_backup` always opens the archive with mode `r:gz`,
which raises `tarfile.ReadError` on a plain tar — embedded as `none`. -/

/-- An on-disk backup archive. -/
structure Archive where
  gz : Bool
  entries : List (String × String)
deriving Repr, DecidableEq

/-- `Savior.create_backup`, as the archive it writes: every collected file
under its relative path; gzip iff the compression level is positive. -/
def create_backup_archive (files : List (String × String))
    (compression_level : Nat) : Archive :=
  { gz := decide (0 < compression_level), entries := files }

/-- `tarfile.open(path, 'r:gz')`: succeeds only on a gzip archive. -/
def open_read_gz (a : Archive) : Option (List (String × String)) :=
  if a.gz then some a.entries else none

/-- `Savior.restore_backup`: extract the archive (always with mode `r:gz`;
failure aborts the restore and returns False, embedded as `none`), unlink
working files absent from the backup unless they are `.savior` files, then
copy every backup file over the working tree. Returns the resulting
relative-path → content mapping. -/
def restore_backup_model (a : Archive) (working : List (String × String)) :
    Option (List (String × String)) :=
  match open_read_gz a with
  | none => none
  | some entries =>
    some (entries ++ working.filter fun p =>
      strStartsWith p.1 ".savior" && !(decide (p.1 ∈ entries.map Prod.fst)))

/-! ### Retention policy — src/savior/core.py `Savior._cleanup_old_backups`

A backup record carries its identity (`path`), its timestamp as minutes
since an epoch (`time`, used for ordering and ages), and the two calendar
projections the code reads: `timestamp.hour` and `timestamp.day`.
Durations: 24 h = 1440 min, 7 days = 10080 min, 30 days = 43200 min. -/

/-- A backup as the retention pass sees it. -/
structure BackupRec where
  path : Nat
  time : Int
  hour : Nat
  day : Nat
deriving Repr, DecidableEq

/-- Insert into a list sorted by descending `time`. -/
def insertByTimeDesc (b : BackupRec) : List BackupRec → List BackupRec
  | [] => [b]
  | c :: rest =>
    if c.time < b.time then b :: c :: rest else c :: insertByTimeDesc b rest

/-- `sorted(backups, key=lambda b: b.timestamp, reverse=True)`. -/
def sortByTimeDesc : List BackupRec → List BackupRec
  | [] => []
  | b :: rest => insertByTimeDesc b (sortByTimeDesc rest)

/-- The tier decision of the cleanup loop for a non-exempt backup: delete
when older than 30 days; keep when younger than 24 hours; keep when
younger than 7 days with `timestamp.hour % 6 == 0`; keep when younger than
30 days with `timestamp.day % 7 == 0`; otherwise delete. -/
def keepTier (now : Int) (b : BackupRec) : Bool :=
  if 43200 < now - b.time then false
  else if now - b.time < 1440 then true
  else if now - b.time < 10080 ∧ b.hour % 6 = 0 then true
  else if now - b.time < 43200 ∧ b.day % 7 = 0 then true
  else false

/-- The 10 most-recent backups, always exempt from cleanup. -/
def recentTen (backups : List BackupRec) : List BackupRec :=
  (sortByTimeDesc backups).take 10

/-- The final duplicate-removal pass (`seen` paths, first occurrence
wins). -/
def dedupByPath : List BackupRec → List Nat → List BackupRec
  | [], _ => []
  | b :: rest, seen =>
    if b.path ∈ seen then dedupByPath rest seen
    else b :: dedupByPath rest (b.path :: seen)

/-- `Savior._cleanup_old_backups`: keep the 10 most-recent backups, walk
all backups newest-first applying `keepTier` to the non-exempt ones, then
drop duplicate paths. Returns the surviving backup list (the new
metadata). -/
def cleanup_old_backups (backups : List BackupRec) (now : Int) : List BackupRec :=
  let sorted := sortByTimeDesc backups
  let recent := sorted.take 10
  let recentPaths := recent.map (fun b => b.path)
  let loopKept := sorted.filter fun b =>
    !(decide (b.path ∈ recentPaths)) && keepTier now b
  dedupByPath (recent ++ loopKept) []

/-- Ten fresh backups (ages 10–100 minutes) plus one backup aged exactly
3 days whose timestamp hour is 7 and day-of-month is 3 — the sole occupant
of its 6-hour bucket. -/
def c4_backups : List BackupRec :=
  [⟨1, 99990, 1, 1⟩, ⟨2, 99980, 1, 1⟩, ⟨3, 99970, 1, 1⟩, ⟨4, 99960, 1, 1⟩,
   ⟨5, 99950, 1, 1⟩, ⟨6, 99940, 1, 1⟩, ⟨7, 99930, 1, 1⟩, ⟨8, 99920, 1, 1⟩,
   ⟨9, 99910, 1, 1⟩, ⟨10, 99900, 1, 1⟩, ⟨11, 95680, 7, 3⟩]

/-- The fixed "now" for the retention counterexample. -/
def c4_now : Int := 100000

/-! ### Content store — src/savior/dedup.py, DeduplicationStore

The store state is the dedup index (content hash → entry) plus the set of
chunk files on disk. `store_file` and `remove_reference` are embedded on
the happy path (no I/O errors); the hashing of file content is abstracted
by operating directly on the content hash, which is all the index logic
reads.
-/

/-- One index entry: `{'size': ..., 'refs': [...], 'ref_count': ...}`. -/
structure ChunkEntry where
  size : Nat
  refs : List String
  ref_count : Nat
deriving Repr, DecidableEq

/-- The content store: index document plus on-disk chunk files (named by
content hash). -/
structure DedupState where
  index : List (String × ChunkEntry)
  disk : List String
deriving Repr, DecidableEq

/-- A freshly initialized store (`_init_store` writes an empty index). -/
def empty_store : DedupState := ⟨[], []⟩

/-- `DeduplicationStore.store_file`: when the hash is already indexed, add
the backup id to the reference set (`set(refs)`, `refs.add`, `ref_count =
len(refs)`); otherwise copy the chunk to disk and create an entry with a
single reference. -/
def store_file (st : DedupState) (content_hash : String) (file_size : Nat)
    (backup_id : String) : DedupState :=
  match lookupStr st.index content_hash with
  | some e =>
    let refs := (e.refs.dedup).insert backup_id
    let e' : ChunkEntry := { e with refs := refs, ref_count := refs.length }
    { st with index := updateStr st.index content_hash e' }
  | none =>
    { index := st.index ++ [(content_hash, ⟨file_size, [backup_id], 1⟩)],
      disk := st.disk.insert content_hash }

/-- The existing-entry branch of `remove_reference`: discard the backup id
from the reference set; when no references remain, unlink the chunk and
delete the index entry. -/
def remove_reference_entry (st : DedupState) (content_hash : String)
    (backup_id : String) (e : ChunkEntry) : DedupState × Bool :=
  let refs := (e.refs.dedup).erase backup_id
  if refs.length = 0 then
    ({ index := removeStr st.index content_hash,
       disk := st.disk.erase content_hash }, true)
  else
    let e' : ChunkEntry := { e with refs := refs, ref_count := refs.length }
    ({ st with index := updateStr st.index content_hash e' }, true)

/-- `DeduplicationStore.remove_reference`: returns False when the hash is
unindexed; otherwise updates or deletes the entry. -/
def remove_reference (st : DedupState) (content_hash : String)
    (backup_id : String) : DedupState × Bool :=
  match lookupStr st.index content_hash with
  | none => (st, false)
  | some e => remove_reference_entry st content_hash backup_id e

/-- The entry written by `store_file` for an already-indexed hash: the
backup id joins the reference set and the count is recomputed. -/
def bumpEntry (e : ChunkEntry) (backup_id : String) : ChunkEntry :=
  ⟨e.size, (e.refs.dedup).insert backup_id, ((e.refs.dedup).insert backup_id).length⟩

/-- The entry written by `remove_reference` when references remain. -/
def dropEntry (e : ChunkEntry) (backup_id : String) : ChunkEntry :=
  ⟨e.size, (e.refs.dedup).erase backup_id, ((e.refs.dedup).erase backup_id).length⟩

/-- An operation against the content store. -/
inductive DedupOp where
  | store (content_hash : String) (file_size : Nat) (backup_id : String)
  | remove (content_hash : String) (backup_id : String)
deriving Repr, DecidableEq

/-- Apply one operation. -/
def apply_op (st : DedupState) : DedupOp → DedupState
  | DedupOp.store h n i => store_file st h n i
  | DedupOp.remove h i => (remove_reference st h i).1

/-- Run a sequence of operations. -/
def run_ops (st : DedupState) : List DedupOp → DedupState
  | [] => st
  | op :: rest => run_ops (apply_op st op) rest

/-- The reference count recorded for a hash (0 when unindexed). -/
def ref_count_of (st : DedupState) (h : String) : Nat :=
  match lookupStr st.index h with
  | some e => e.ref_count
  | none => 0

/-- The backup ids citing a hash (empty when unindexed). -/
def citing_refs (st : DedupState) (h : String) : List String :=
  match lookupStr st.index h with
  | some e => e.refs
  | none => []

/-- The store's well-formedness invariant: chunk files are distinct, a
chunk is on disk exactly when its hash is indexed, and every index entry
carries a non-empty duplicate-free reference list whose length is the
recorded reference count. -/
def StoreWF (st : DedupState) : Prop :=
  st.disk.Nodup ∧
  (∀ h, h ∈ st.disk ↔ (lookupStr st.index h).isSome) ∧
  (∀ h e, lookupStr st.index h = some e →
    e.refs ≠ [] ∧ e.refs.Nodup ∧ e.ref_count = e.refs.length)

end Savior

/-! ## Helper lemmas -/

namespace Savior

theorem lookupStr_updateStr_self {β : Type} (l : List (String × β)) (h : String) (v : β)
    (hmem : (lookupStr l h).isSome) : lookupStr (updateStr l h v) h = some v := by
  induction l with
  | nil => simp [lookupStr] at hmem
  | cons p rest ih =>
    by_cases hk : p.1 = h
    · simp [updateStr, lookupStr, hk]
    · simp [updateStr, lookupStr, hk] at hmem ⊢
      exact ih hmem

theorem lookupStr_updateStr_ne {β : Type} (l : List (String × β)) (h h' : String) (v : β)
    (hne : h' ≠ h) : lookupStr (updateStr l h v) h' = lookupStr l h' := by
  induction l with
  | nil => simp [updateStr]
  | cons p rest ih =>
    by_cases hk : p.1 = h
    · subst hk
      simp [updateStr, lookupStr, Ne.symm hne]
    · simp [updateStr, lookupStr, hk]
      by_cases hk' : p.1 = h'
      · simp [hk']
      · simp [hk', ih]

theorem lookupStr_removeStr_self {β : Type} (l : List (String × β)) (h : String) :
    lookupStr (removeStr l h) h = none := by
  induction l with
  | nil => simp [removeStr, lookupStr]
  | cons p rest ih =>
    by_cases hk : p.1 = h
    · simpa [removeStr, hk]
    · simp [removeStr, hk, lookupStr, ih]

theorem lookupStr_removeStr_ne {β : Type} (l : List (String × β)) (h h' : String)
    (hne : h' ≠ h) : lookupStr (removeStr l h) h' = lookupStr l h' := by
  induction l with
  | nil => simp [removeStr]
  | cons p rest ih =>
    by_cases hk : p.1 = h
    · subst hk
      simp [removeStr, lookupStr, Ne.symm hne, ih]
    · by_cases hk' : p.1 = h'
      · subst hk'
        simp [removeStr, hk, lookupStr]
      · simp [removeStr, hk, lookupStr, hk', ih]

theorem lookupStr_append {β : Type} (l m : List (String × β)) (h : String) :
    lookupStr (l ++ m) h =
      match lookupStr l h with
      | some v => some v
      | none => lookupStr m h := by
  induction l with
  | nil => simp [lookupStr]
  | cons p rest ih =>
    by_cases hk : p.1 = h
    · simp [lookupStr, hk]
    · simp [lookupStr, hk, ih]

theorem lookupStr_setStr_self {β : Type} (l : List (String × β)) (h : String) (v : β) :
    lookupStr (setStr l h v) h = some v := by
  unfold setStr
  cases hc : lookupStr l h with
  | some w =>
    exact lookupStr_updateStr_self l h v (by simp [hc])
  | none =>
    rw [lookupStr_append, hc]
    simp [lookupStr]

theorem lookupStr_setStr_ne {β : Type} (l : List (String × β)) (h h' : String) (v : β)
    (hne : h' ≠ h) : lookupStr (setStr l h v) h' = lookupStr l h' := by
  unfold setStr
  cases hc : lookupStr l h with
  | some w =>
    exact lookupStr_updateStr_ne l h h' v hne
  | none =>
    rw [lookupStr_append]
    cases hc' : lookupStr l h' with
    | some w => simp
    | none => simp [lookupStr, hne, Ne.symm hne]

theorem should_ignore_savior_component (fnm : String → String → Bool)
    (patterns : List String) (p : List String)
    (hpat : ".savior/" ∈ patterns) (hc : ".savior" ∈ p) :
    should_ignore fnm patterns p = true := by
  unfold should_ignore
  rw [List.any_eq_true]
  refine ⟨".savior/", hpat, ?_⟩
  have h1 : strEndsWith ".savior/" "/" = true := by decide
  have h2 : dropLastChar ".savior/" = ".savior" := by decide
  simp [h1, h2, hc]

theorem mem_map_fst_of_mem_filter {α β : Type} (l : List (α × β)) (q : α × β → Bool)
    (p : α) (hp : p ∈ (l.filter q).map Prod.fst) : p ∈ l.map Prod.fst := by
  rw [List.mem_map] at hp ⊢
  obtain ⟨b, hb, rfl⟩ := hp
  exact ⟨b, List.mem_of_mem_filter hb, rfl⟩

theorem insertByTimeDesc_perm (b : BackupRec) (l : List BackupRec) :
    List.Perm (insertByTimeDesc b l) (b :: l) := by
  induction l with
  | nil => simp [insertByTimeDesc]
  | cons c rest ih =>
    unfold insertByTimeDesc
    by_cases hc : c.time < b.time
    · simp [hc]
    · simp only [hc, if_false]
      exact (List.Perm.cons c ih).trans (List.Perm.swap b c rest)

theorem sortByTimeDesc_perm (l : List BackupRec) :
    List.Perm (sortByTimeDesc l) l := by
  induction l with
  | nil => simp [sortByTimeDesc]
  | cons b rest ih =>
    exact (insertByTimeDesc_perm b (sortByTimeDesc rest)).trans (List.Perm.cons b ih)

theorem store_file_lookup_some (st : DedupState) (h0 : String) (n : Nat)
    (id0 : String) (e : ChunkEntry) (hlk : lookupStr st.index h0 = some e) :
    store_file st h0 n id0 =
      { st with index := updateStr st.index h0 (bumpEntry e id0) } := by
  unfold store_file
  rw [hlk]
  rfl

theorem store_file_lookup_none (st : DedupState) (h0 : String) (n : Nat)
    (id0 : String) (hlk : lookupStr st.index h0 = none) :
    store_file st h0 n id0 =
      ⟨st.index ++ [(h0, ⟨n, [id0], 1⟩)], st.disk.insert h0⟩ := by
  unfold store_file
  rw [hlk]

theorem remove_reference_lookup_none (st : DedupState) (h0 : String)
    (id0 : String) (hlk : lookupStr st.index h0 = none) :
    remove_reference st h0 id0 = (st, false) := by
  unfold remove_reference
  rw [hlk]

theorem remove_reference_lookup_some (st : DedupState) (h0 : String)
    (id0 : String) (e : ChunkEntry) (hlk : lookupStr st.index h0 = some e) :
    remove_reference st h0 id0 = remove_reference_entry st h0 id0 e := by
  unfold remove_reference
  rw [hlk]

theorem remove_reference_entry_eq (st : DedupState) (h0 : String)
    (id0 : String) (e : ChunkEntry) :
    remove_reference_entry st h0 id0 e =
      if ((e.refs.dedup).erase id0).length = 0 then
        (⟨removeStr st.index h0, st.disk.erase h0⟩, true)
      else
        ({ st with index := updateStr st.index h0 (dropEntry e id0) }, true) :=
  rfl

theorem store_file_WF (st : DedupState) (h0 : String) (n : Nat) (id0 : String)
    (hwf : StoreWF st) : StoreWF (store_file st h0 n id0) := by
  obtain ⟨hdisk, hiff, hent⟩ := hwf
  cases hlk : lookupStr st.index h0 with
  | some e =>
    obtain ⟨hne, hnd, hcnt⟩ := hent h0 e hlk
    rw [store_file_lookup_some st h0 n id0 e hlk]
    refine ⟨hdisk, fun h => ?_, fun h e' hlk' => ?_⟩
    · show h ∈ st.disk ↔
        (lookupStr (updateStr st.index h0 (bumpEntry e id0)) h).isSome = true
      by_cases hh : h = h0
      · subst hh
        rw [lookupStr_updateStr_self st.index h _ (by rw [hlk]; rfl)]
        have hmem := hiff h
        rw [hlk] at hmem
        simpa using hmem
      · rw [lookupStr_updateStr_ne st.index h0 h _ hh]
        exact hiff h
    · have hlk2 : lookupStr (updateStr st.index h0 (bumpEntry e id0)) h = some e' :=
        hlk'
      by_cases hh : h = h0
      · subst hh
        rw [lookupStr_updateStr_self st.index h _ (by rw [hlk]; rfl)] at hlk2
        cases hlk2
        refine ⟨?_, ?_, rfl⟩
        · exact List.ne_nil_of_mem (List.mem_insert_self id0 e.refs.dedup)
        · exact (List.nodup_dedup e.refs).insert
      · rw [lookupStr_updateStr_ne st.index h0 h _ hh] at hlk2
        exact hent h e' hlk2
  | none =>
    rw [store_file_lookup_none st h0 n id0 hlk]
    refine ⟨hdisk.insert, fun h => ?_, fun h e' hlk' => ?_⟩
    · show h ∈ st.disk.insert h0 ↔
        (lookupStr (st.index ++ [(h0, ⟨n, [id0], 1⟩)]) h).isSome = true
      rw [List.mem_insert_iff, lookupStr_append]
      by_cases hh : h = h0
      · subst hh
        rw [hlk]
        simp [lookupStr]
      · cases hlk2 : lookupStr st.index h with
        | some v =>
          have hmem := hiff h
          rw [hlk2] at hmem
          simp [hmem, hh]
        | none =>
          have hmem := hiff h
          rw [hlk2] at hmem
          simp only [lookupStr, Ne.symm hh, if_false]
          simp [hmem, hh]
    · have hlk2 : lookupStr (st.index ++ [(h0, ⟨n, [id0], 1⟩)]) h = some e' := hlk'
      rw [lookupStr_append] at hlk2
      cases hlk3 : lookupStr st.index h with
      | some v =>
        rw [hlk3] at hlk2
        have hv : v = e' := Option.some.inj hlk2
        subst hv
        exact hent h _ hlk3
      | none =>
        rw [hlk3] at hlk2
        by_cases hh : h0 = h
        · simp only [lookupStr, hh, if_true] at hlk2
          cases hlk2
          exact ⟨by simp, by simp, rfl⟩
        · simp [lookupStr, hh] at hlk2

theorem remove_reference_WF (st : DedupState) (h0 : String) (id0 : String)
    (hwf : StoreWF st) : StoreWF (remove_reference st h0 id0).1 := by
  obtain ⟨hdisk, hiff, hent⟩ := hwf
  cases hlk : lookupStr st.index h0 with
  | none =>
    rw [remove_reference_lookup_none st h0 id0 hlk]
    exact ⟨hdisk, hiff, hent⟩
  | some e =>
    obtain ⟨hne, hnd, hcnt⟩ := hent h0 e hlk
    rw [remove_reference_lookup_some st h0 id0 e hlk, remove_reference_entry_eq]
    by_cases hz : ((e.refs.dedup).erase id0).length = 0
    · rw [if_pos hz]
      refine ⟨hdisk.erase h0, fun h => ?_, fun h e' hlk' => ?_⟩
      · show h ∈ st.disk.erase h0 ↔
          (lookupStr (removeStr st.index h0) h).isSome = true
        by_cases hh : h = h0
        · subst hh
          rw [lookupStr_removeStr_self]
          simp [hdisk.mem_erase_iff]
        · rw [lookupStr_removeStr_ne st.index h0 h hh, hdisk.mem_erase_iff]
          simp [hh, hiff h]
      · have hlk2 : lookupStr (removeStr st.index h0) h = some e' := hlk'
        by_cases hh : h = h0
        · subst hh
          rw [lookupStr_removeStr_self] at hlk2
          cases hlk2
        · rw [lookupStr_removeStr_ne st.index h0 h hh] at hlk2
          exact hent h e' hlk2
    · rw [if_neg hz]
      refine ⟨hdisk, fun h => ?_, fun h e' hlk' => ?_⟩
      · show h ∈ st.disk ↔
          (lookupStr (updateStr st.index h0 (dropEntry e id0)) h).isSome = true
        by_cases hh : h = h0
        · subst hh
          rw [lookupStr_updateStr_self st.index h _ (by rw [hlk]; rfl)]
          have hmem := hiff h
          rw [hlk] at hmem
          simpa using hmem
        · rw [lookupStr_updateStr_ne st.index h0 h _ hh]
          exact hiff h
      · have hlk2 : lookupStr (updateStr st.index h0 (dropEntry e id0)) h = some e' :=
          hlk'
        by_cases hh : h = h0
        · subst hh
          rw [lookupStr_updateStr_self st.index h _ (by rw [hlk]; rfl)] at hlk2
          cases hlk2
          refine ⟨?_, ?_, rfl⟩
          · intro hcon
            apply hz
            show ((e.refs.dedup).erase id0).length = 0
            rw [show (dropEntry e id0).refs = (e.refs.dedup).erase id0 from rfl] at hcon
            rw [hcon]
            rfl
          · exact (List.nodup_dedup e.refs).erase id0
        · rw [lookupStr_updateStr_ne st.index h0 h _ hh] at hlk2
          exact hent h e' hlk2

theorem run_ops_WF_from (ops : List DedupOp) (st : DedupState) (hwf : StoreWF st) :
    StoreWF (run_ops st ops) := by
  induction ops generalizing st with
  | nil => exact hwf
  | cons op rest ih =>
    cases op with
    | store h n i => exact ih _ (store_file_WF st h n i hwf)
    | remove h i => exact ih _ (remove_reference_WF st h i hwf)

theorem empty_store_WF : StoreWF empty_store := by
  refine ⟨List.nodup_nil, ?_, ?_⟩
  · intro h
    simp [empty_store, lookupStr]
  · intro h e hlk
    simp [empty_store, lookupStr] at hlk

theorem bumpEntry_of_fresh (n : Nat) (refs : List String) (cnt : Nat) (i : String)
    (hrefs : refs.Nodup) (hmem : i ∉ refs) :
    bumpEntry ⟨n, refs, cnt⟩ i = ⟨n, i :: refs, (i :: refs).length⟩ := by
  unfold bumpEntry
  simp only
  rw [List.dedup_eq_self.2 hrefs, List.insert_of_not_mem hmem]

theorem run_stores_from_entry (h0 : String) (n : Nat) (ids : List String)
    (refs : List String) (hrefs : refs.Nodup)
    (hdisj : ∀ i ∈ ids, i ∉ refs) (hids : ids.Nodup) :
    ref_count_of (run_ops ⟨[(h0, ⟨n, refs, refs.length⟩)], [h0]⟩
        (ids.map fun i => DedupOp.store h0 n i)) h0 = refs.length + ids.length ∧
    (run_ops ⟨[(h0, ⟨n, refs, refs.length⟩)], [h0]⟩
        (ids.map fun i => DedupOp.store h0 n i)).disk = [h0] := by
  induction ids generalizing refs with
  | nil => simp [run_ops, ref_count_of, lookupStr]
  | cons i rest ih =>
    simp only [List.map_cons, run_ops, apply_op]
    have hmem : i ∉ refs := hdisj i (List.mem_cons_self i rest)
    have hstep : store_file ⟨[(h0, ⟨n, refs, refs.length⟩)], [h0]⟩ h0 n i =
        ⟨[(h0, ⟨n, i :: refs, (i :: refs).length⟩)], [h0]⟩ := by
      rw [store_file_lookup_some ⟨[(h0, ⟨n, refs, refs.length⟩)], [h0]⟩ h0 n i
        ⟨n, refs, refs.length⟩ (by simp [lookupStr])]
      rw [bumpEntry_of_fresh n refs refs.length i hrefs hmem]
      show (⟨updateStr [(h0, ⟨n, refs, refs.length⟩)] h0 ⟨n, i :: refs, (i :: refs).length⟩,
        [h0]⟩ : DedupState) = _
      unfold updateStr
      simp
    rw [hstep]
    have hrest := ih (i :: refs)
      (List.nodup_cons.2 ⟨hmem, hrefs⟩)
      (fun j hj => by
        simp only [List.mem_cons, not_or]
        refine ⟨?_, hdisj j (List.mem_cons_of_mem i hj)⟩
        intro hji
        rw [List.nodup_cons] at hids
        exact hids.1 (hji ▸ hj))
      (List.nodup_cons.1 hids).2
    refine ⟨?_, hrest.2⟩
    rw [hrest.1]
    simp only [List.length_cons]
    omega

theorem dedupByPath_eq_self (l : List BackupRec) (seen : List Nat)
    (hdisj : ∀ b ∈ l, b.path ∉ seen)
    (hnd : (l.map fun b => b.path).Nodup) : dedupByPath l seen = l := by
  induction l generalizing seen with
  | nil => simp [dedupByPath]
  | cons b rest ih =>
    have hb : b.path ∉ seen := hdisj b (List.mem_cons_self b rest)
    unfold dedupByPath
    simp only [hb, if_false]
    congr 1
    apply ih
    · intro c hc
      simp only [List.mem_cons, not_or]
      constructor
      · intro hcb
        rw [List.map_cons, List.nodup_cons] at hnd
        exact hnd.1 (hcb ▸ List.mem_map_of_mem (fun x => x.path) hc)
      · exact hdisj c (List.mem_cons_of_mem b hc)
    · rw [List.map_cons, List.nodup_cons] at hnd
      exact hnd.2

end Savior

/-! ## Claim theorems -/

/-- C8: `should_deduplicate` returns true if and only if the file's size is
at or above 1 KiB (1024 bytes) and its lower-cased extension is not in the
fixed skip set of poorly-deduplicating extensions. -/
theorem C8_dedup_eligibility (f : Savior.FileMeta) :
    Savior.should_deduplicate f = true ↔
      1024 ≤ f.size ∧ f.suffix.toLower ∉ Savior.SKIP_DEDUP_EXTENSIONS := by
  unfold Savior.should_deduplicate Savior.MIN_DEDUP_SIZE
  by_cases hs : f.size < 1024
  · have hlt : ¬ 1024 ≤ f.size := by omega
    simp [hs, hlt]
  · have hge : 1024 ≤ f.size := by omega
    by_cases he : f.suffix.toLower ∈ Savior.SKIP_DEDUP_EXTENSIONS
    · simp [hs, he]
    · simp [hs, he, hge]

/-- C7: a request whose auth field is missing or differs from the daemon's
stored token receives the authentication-failure error, and the response is
independent of the command dispatcher (the request is never dispatched);
a request bearing the exact token is handed to `_process_command`. -/
theorem C7_ipc_auth_gate (process_command : Savior.IpcRequest → Savior.IpcResponse)
    (auth_token : String) (req : Savior.IpcRequest) :
    (req.auth ≠ some auth_token →
      Savior.handle_client process_command auth_token req =
        Savior.IpcResponse.error "Authentication failed" ∧
      ∀ other_dispatch : Savior.IpcRequest → Savior.IpcResponse,
        Savior.handle_client process_command auth_token req =
          Savior.handle_client other_dispatch auth_token req) ∧
    (req.auth = some auth_token →
      Savior.handle_client process_command auth_token req = process_command req) := by
  constructor
  · intro hne
    constructor
    · simp [Savior.handle_client, hne]
    · intro other
      simp [Savior.handle_client, hne]
  · intro heq
    simp [Savior.handle_client, heq]

/-- Witness for C7: the theorem applied at a concrete unauthenticated
request and at a concrete authenticated one. -/
theorem C7_ipc_auth_gate_witness :
    Savior.handle_client (fun _ => Savior.IpcResponse.payload "ok") "secret"
        { auth := none, cmdType := some "status" } =
      Savior.IpcResponse.error "Authentication failed" ∧
    Savior.handle_client (fun _ => Savior.IpcResponse.payload "ok") "secret"
        { auth := some "secret", cmdType := some "status" } =
      Savior.IpcResponse.payload "ok" := by
  refine ⟨?_, ?_⟩
  · exact ((C7_ipc_auth_gate (fun _ => Savior.IpcResponse.payload "ok") "secret"
      { auth := none, cmdType := some "status" }).1 (by decide)).1
  · exact (C7_ipc_auth_gate (fun _ => Savior.IpcResponse.payload "ok") "secret"
      { auth := some "secret", cmdType := some "status" }).2 rfl

/-- C1 (code bug): with the file-state index holding `a.txt` and `b.txt`,
after modifying `a.txt` and deleting `b.txt`, `find_changed_files` on the
state an `IncrementalBackup.__init__` produces classifies nothing as added
or modified and classifies every indexed file — including the unchanged,
still-present `a.txt` — as deleted, because the `project_dir` attribute it
reads is never assigned and the resulting `AttributeError` is swallowed per
file. The claim requires exactly `{a.txt}` added-or-modified and exactly
`{b.txt}` deleted. -/
theorem C1_incremental_diff_bug :
    Savior.find_changed_files
        (Savior.incremental_init [("a.txt", "hash-a1"), ("b.txt", "hash-b")])
        [{ path := ["proj", "a.txt"], hash := "hash-a2" }] =
      ([], [], ["a.txt", "b.txt"], Savior.incremental_init []) := by
  rfl

/-- C5 (counterexample): persisting the dedup index is not atomic — on a
disk holding `index.json` with old content, the first intermediate state of
`DeduplicationStore._save_index` (the `open(..., 'w')` truncation) leaves
the index file holding neither the old nor the new document. -/
theorem C5_counterexample :
    ∃ fs ∈ Savior.save_index_trace ⟨[("index.json", "OLD")]⟩ "NEW",
      Savior.fsRead fs "index.json" ≠ some "OLD" ∧
      Savior.fsRead fs "index.json" ≠ some "NEW" := by
  refine ⟨Savior.fsWrite ⟨[("index.json", "OLD")]⟩ "index.json" "", ?_, ?_, ?_⟩
  · simp [Savior.save_index_trace]
  · decide
  · decide

/-- C5 (amended): only the project metadata document is persisted via
write-to-temp-then-atomic-rename — at every intermediate state of
`Savior._save_metadata` the metadata file holds either the old or the new
document in full — while `DeduplicationStore._save_index` and `_save_stats`
write their targets in place, exposing an intermediate truncated state. -/
theorem C5_atomic_persistence (fs : Savior.FsState) (content : String) :
    (∀ st ∈ Savior.save_metadata_trace fs content,
        Savior.fsRead st "metadata.json" = Savior.fsRead fs "metadata.json" ∨
        Savior.fsRead st "metadata.json" = some content) ∧
    (∃ st ∈ Savior.save_index_trace fs content,
        Savior.fsRead st "index.json" = some "") ∧
    (∃ st ∈ Savior.save_stats_trace fs content,
        Savior.fsRead st "stats.json" = some "") := by
  refine ⟨?_, ?_, ?_⟩
  · intro st hst
    simp only [Savior.save_metadata_trace, List.mem_cons, List.mem_singleton,
      List.not_mem_nil, or_false] at hst
    rcases hst with h1 | h2 | h3
    · subst h1
      left
      exact Savior.lookupStr_setStr_ne fs.files ".metadata_tmp" "metadata.json" "" (by decide)
    · subst h2
      left
      show Savior.lookupStr (Savior.setStr (Savior.setStr fs.files ".metadata_tmp" "")
        ".metadata_tmp" content) "metadata.json" = Savior.fsRead fs "metadata.json"
      rw [Savior.lookupStr_setStr_ne _ _ _ _ (by decide : ("metadata.json" : String) ≠ ".metadata_tmp")]
      exact Savior.lookupStr_setStr_ne fs.files ".metadata_tmp" "metadata.json" "" (by decide)
    · subst h3
      right
      show Savior.fsRead (Savior.fsRename _ ".metadata_tmp" "metadata.json") "metadata.json" = some content
      unfold Savior.fsRename
      rw [show Savior.lookupStr (Savior.fsWrite (Savior.fsWrite fs ".metadata_tmp" "")
            ".metadata_tmp" content).files ".metadata_tmp" = some content from
          Savior.lookupStr_setStr_self _ _ _]
      exact Savior.lookupStr_setStr_self _ _ _
  · refine ⟨Savior.fsWrite fs "index.json" "", ?_, ?_⟩
    · simp [Savior.save_index_trace]
    · exact Savior.lookupStr_setStr_self fs.files "index.json" ""
  · refine ⟨Savior.fsWrite fs "stats.json" "", ?_, ?_⟩
    · simp [Savior.save_stats_trace]
    · exact Savior.lookupStr_setStr_self fs.files "stats.json" ""

/-- Witness for C5: the amended theorem applied at a concrete disk state
and document, membership in the trace discharged concretely. -/
theorem C5_atomic_persistence_witness :
    Savior.fsRead (Savior.fsWrite ⟨[("metadata.json", "OLD")]⟩ ".metadata_tmp" "")
        "metadata.json" =
      Savior.fsRead (⟨[("metadata.json", "OLD")]⟩ : Savior.FsState) "metadata.json" ∨
    Savior.fsRead (Savior.fsWrite ⟨[("metadata.json", "OLD")]⟩ ".metadata_tmp" "")
        "metadata.json" = some "NEW" :=
  (C5_atomic_persistence ⟨[("metadata.json", "OLD")]⟩ "NEW").1
    (Savior.fsWrite ⟨[("metadata.json", "OLD")]⟩ ".metadata_tmp" "")
    (by simp [Savior.save_metadata_trace])

/-- C6 (code bug): an incremental restore extracts its archives with a bare
unfiltered `tar.extractall`, so a member named `../../etc/passwd` is
written outside the target directory and no error is raised — while
`safe_extract` on the same archive does fail closed with an unsafe-path
error. The claim requires every restore/extraction operation to fail
closed and write nothing outside the target. -/
theorem C6_traversal_extraction_bug :
    Savior.restore_incremental_base_writes
        [{ name := "../../etc/passwd", size := 10, isSym := false, linkname := "" }]
        ["home", "user", "proj"] = [["home", "etc", "passwd"]] ∧
    Savior.isLeadSegment ["home", "user", "proj"] ["home", "etc", "passwd"] = false ∧
    Savior.safe_extract
        [{ name := "../../etc/passwd", size := 10, isSym := false, linkname := "" }]
        ["home", "user", "proj"] 10485760000 =
      Savior.ExtractResult.err "Unsafe path in archive: ../../etc/passwd" := by
  decide

/-- C9: whatever the ignore-file contents, the extra patterns, the
`exclude_git` flag and the fnmatch matcher, the ignore engine always
carries the `.savior/` pattern, and every path `_collect_files` returns has
no `.savior` component — so no backup archive ever contains the backup
store itself. -/
theorem C9_never_archives_own_store (fnm : String → String → Bool)
    (lines : Option (List String)) (exclude_git : Bool) (extra : List String)
    (files : List (List String × Nat)) (p : List String)
    (hp : p ∈ Savior.collect_files fnm
        (Savior.load_ignore_patterns lines exclude_git extra) files) :
    ".savior/" ∈ Savior.load_ignore_patterns lines exclude_git extra ∧
    ".savior" ∉ p := by
  have hpat : ".savior/" ∈ Savior.load_ignore_patterns lines exclude_git extra := by
    unfold Savior.load_ignore_patterns
    cases lines <;> simp
  refine ⟨hpat, ?_⟩
  intro hmem
  unfold Savior.collect_files at hp
  rw [List.mem_map] at hp
  obtain ⟨f, hf, rfl⟩ := hp
  rw [List.mem_filter] at hf
  have hcond := hf.2
  simp only [Bool.and_eq_true, Bool.not_eq_true'] at hcond
  have hign := Savior.should_ignore_savior_component fnm
    (Savior.load_ignore_patterns lines exclude_git extra) f.1 hpat hmem
  rw [hign] at hcond
  exact absurd hcond.1.2 (by simp)

/-- Witness for C9: the theorem applied at a concrete matcher, ignore
configuration and file set. -/
theorem C9_never_archives_own_store_witness :
    ".savior/" ∈ Savior.load_ignore_patterns none false [] ∧
    ".savior" ∉ (["src", "main.py"] : List String) :=
  C9_never_archives_own_store (fun _ _ => false) none false []
    [(["src", "main.py"], 100)] ["src", "main.py"] (by decide)

/-- C10: the cleanup pass of `restore_backup` never unlinks a relative path
whose first component is `.savior`, and `detect_file_conflicts` never
classifies a path lying inside the `.savior` directory (given that the
backup's own file table, built from an archive that never contains the
store, has no `.savior` path), so backups and metadata survive any
restore. -/
theorem C10_restore_preserves_metadata_dir (projParts : List String)
    (working backup_paths : List (List String))
    (current : List (List String × Savior.CurMeta))
    (backup : List (List String × Savior.BakMeta))
    (hb : ∀ k ∈ backup.map Prod.fst, k.head? ≠ some ".savior") :
    (∀ p ∈ Savior.restore_unlink_set projParts working backup_paths,
        p.head? ≠ some ".savior") ∧
    (∀ p, (p ∈ (Savior.detect_file_conflicts projParts current backup).modified ∨
           p ∈ (Savior.detect_file_conflicts projParts current backup).permission ∨
           p ∈ (Savior.detect_file_conflicts projParts current backup).deleted ∨
           p ∈ (Savior.detect_file_conflicts projParts current backup).newFiles) →
        ¬(p.head? = some ".savior" ∧ 2 ≤ p.length)) := by
  constructor
  · intro p hp heq
    unfold Savior.restore_unlink_set at hp
    rw [List.mem_filter] at hp
    have hcond := hp.2
    simp only [Bool.and_eq_true, Bool.not_eq_true'] at hcond
    have hstart := hcond.2
    cases p with
    | nil => simp at heq
    | cons c rest =>
      have hc : c = ".savior" := by simpa using heq
      subst hc
      have : Savior.relStartsWithSavior (".savior" :: rest) = true := by
        simp [Savior.relStartsWithSavior]
        decide
      rw [this] at hstart
      exact absurd hstart (by simp)
  · intro p hp hcontra
    obtain ⟨hhead, hlen⟩ := hcontra
    have hbackup_side : p ∈ backup.map Prod.fst → False := fun hmem =>
      absurd hhead (hb p hmem)
    simp only [Savior.detect_file_conflicts] at hp
    rcases hp with hmod | hperm | hdel | hnew
    · exact hbackup_side (Savior.mem_map_fst_of_mem_filter backup _ p hmod)
    · exact hbackup_side (Savior.mem_map_fst_of_mem_filter backup _ p hperm)
    · exact hbackup_side (Savior.mem_map_fst_of_mem_filter backup _ p hdel)
    · have hcur : p ∈ (current.filter fun f =>
          !(decide (".savior" ∈ projParts ++ f.1.dropLast))).map Prod.fst := by
        rw [List.mem_map] at hnew ⊢
        obtain ⟨c, hc, rfl⟩ := hnew
        exact ⟨c, List.mem_of_mem_filter hc, rfl⟩
      rw [List.mem_map] at hcur
      obtain ⟨c, hc, hceq⟩ := hcur
      rw [List.mem_filter] at hc
      have hpred := hc.2
      simp only [Bool.not_eq_true', decide_eq_false_iff_not] at hpred
      apply hpred
      rw [hceq]
      cases p with
      | nil => simp at hhead
      | cons a rest =>
        have ha : a = ".savior" := by simpa using hhead
        subst ha
        cases rest with
        | nil => simp at hlen
        | cons b rest' =>
          simp [List.dropLast]

/-- Witness for C10: the theorem applied at a concrete working tree,
backup table and path. -/
theorem C10_restore_preserves_metadata_dir_witness :
    (["x.txt"] : List String).head? ≠ some ".savior" :=
  (C10_restore_preserves_metadata_dir ["home"] [["x.txt"]] [] [] [] (by simp)).1
    ["x.txt"] (by decide)

/-- C3 (code bug): the full-strategy round trip fails at compression
level 0 — `create_backup` then writes a plain (uncompressed) tar, but
`restore_backup` opens every archive with mode `r:gz`, which raises
`tarfile.ReadError` on it, so the restore aborts and reproduces nothing;
the same file set at level 6 round-trips to exactly the backed-up
mapping. -/
theorem C3_roundtrip_level_zero_bug :
    Savior.restore_backup_model
        (Savior.create_backup_archive [("a.txt", "hello")] 0)
        [("a.txt", "stale")] = none ∧
    Savior.restore_backup_model
        (Savior.create_backup_archive [("a.txt", "hello")] 6)
        [("a.txt", "stale")] = some [("a.txt", "hello")] := by
  decide

/-- C4 (counterexample): on ten fresh backups plus one backup aged exactly
3 days (between 24 hours and 7 days old, the sole occupant of its 6-hour
bucket, timestamp hour 7), the cleanup pass deletes that backup — its
bucket keeps zero snapshots, not exactly one as the claim requires. -/
theorem C4_retention_counterexample :
    (Savior.cleanup_old_backups Savior.c4_backups Savior.c4_now).filter
        (fun b => b.path == 11) = [] ∧
    (⟨11, 95680, 7, 3⟩ : Savior.BackupRec) ∈ Savior.c4_backups ∧
    (1440 : Int) ≤ Savior.c4_now - 95680 ∧
    Savior.c4_now - 95680 < 10080 ∧
    (∀ b ∈ Savior.c4_backups, b.path ≠ 11 → Savior.c4_now - b.time < 1440) := by
  decide

/-- C4 (amended): for backups with pairwise-distinct archive paths, the
cleanup pass keeps exactly: the 10 most-recent backups, plus every other
backup that is at most 30 days old and either is younger than 24 hours, or
is younger than 7 days with a timestamp hour divisible by 6, or is younger
than 30 days with a timestamp day-of-month divisible by 7; everything else
is deleted (the rules test hour/day divisibility of the single timestamp,
not one-per-bucket coverage). -/
theorem C4_retention_tiers (backups : List Savior.BackupRec) (now : Int)
    (hnodup : (backups.map fun b => b.path).Nodup) (b : Savior.BackupRec) :
    b ∈ Savior.cleanup_old_backups backups now ↔
      b ∈ Savior.recentTen backups ∨
      (b ∈ backups ∧
        b.path ∉ (Savior.recentTen backups).map (fun x => x.path) ∧
        Savior.keepTier now b = true) := by
  have hperm : List.Perm (Savior.sortByTimeDesc backups) backups :=
    Savior.sortByTimeDesc_perm backups
  have hsp : ((Savior.sortByTimeDesc backups).map fun x => x.path).Nodup :=
    ((hperm.map fun x => x.path).nodup_iff).2 hnodup
  have hrec_nd : (((Savior.sortByTimeDesc backups).take 10).map fun x => x.path).Nodup := by
    rw [List.map_take]
    exact hsp.sublist (List.take_sublist 10 _)
  have hfilter_sub :
      ((Savior.sortByTimeDesc backups).filter fun x =>
          !(decide (x.path ∈ ((Savior.sortByTimeDesc backups).take 10).map fun y => y.path)) &&
          Savior.keepTier now x).Sublist (Savior.sortByTimeDesc backups) :=
    List.filter_sublist _
  have hlk_nd :
      (((Savior.sortByTimeDesc backups).filter fun x =>
          !(decide (x.path ∈ ((Savior.sortByTimeDesc backups).take 10).map fun y => y.path)) &&
          Savior.keepTier now x).map fun x => x.path).Nodup :=
    hsp.sublist (hfilter_sub.map fun x => x.path)
  have hdisj :
      ((((Savior.sortByTimeDesc backups).take 10).map fun x => x.path) : List Nat).Disjoint
        (((Savior.sortByTimeDesc backups).filter fun x =>
            !(decide (x.path ∈ ((Savior.sortByTimeDesc backups).take 10).map fun y => y.path)) &&
            Savior.keepTier now x).map fun x => x.path) := by
    intro q hq1 hq2
    rw [List.mem_map] at hq2
    obtain ⟨c, hc, rfl⟩ := hq2
    rw [List.mem_filter] at hc
    have := hc.2
    simp only [Bool.and_eq_true, Bool.not_eq_true', decide_eq_false_iff_not] at this
    exact this.1 hq1
  have happ_nd :
      (((Savior.sortByTimeDesc backups).take 10 ++
        (Savior.sortByTimeDesc backups).filter fun x =>
          !(decide (x.path ∈ ((Savior.sortByTimeDesc backups).take 10).map fun y => y.path)) &&
          Savior.keepTier now x).map fun x => x.path).Nodup := by
    rw [List.map_append, List.nodup_append]
    exact ⟨hrec_nd, hlk_nd, hdisj⟩
  have hdedup := Savior.dedupByPath_eq_self
    ((Savior.sortByTimeDesc backups).take 10 ++
      (Savior.sortByTimeDesc backups).filter fun x =>
        !(decide (x.path ∈ ((Savior.sortByTimeDesc backups).take 10).map fun y => y.path)) &&
        Savior.keepTier now x) []
    (by intro c hc; simp) happ_nd
  show b ∈ Savior.dedupByPath _ [] ↔ _
  rw [hdedup, List.mem_append, List.mem_filter]
  unfold Savior.recentTen
  constructor
  · rintro (h | ⟨hmem, hcond⟩)
    · exact Or.inl h
    · simp only [Bool.and_eq_true, Bool.not_eq_true', decide_eq_false_iff_not] at hcond
      exact Or.inr ⟨hperm.mem_iff.1 hmem, hcond.1, hcond.2⟩
  · rintro (h | ⟨hmem, hpath, htier⟩)
    · exact Or.inl h
    · refine Or.inr ⟨hperm.mem_iff.2 hmem, ?_⟩
      simp only [Bool.and_eq_true, Bool.not_eq_true', decide_eq_false_iff_not]
      exact ⟨hpath, htier⟩

/-- C2: starting from an empty content store, after any sequence of
`store_file` / `remove_reference` operations: a chunk file is on disk if
and only if the hash's reference count is positive, and the reference
count equals the number of distinct backup ids citing the hash; storing
one content under N distinct backup ids yields reference count N and
exactly one on-disk chunk; and removing the last reference deletes both
the chunk and the index entry. -/
theorem C2_refcount_invariant (ops : List Savior.DedupOp) :
    (∀ h, ((h ∈ (Savior.run_ops Savior.empty_store ops).disk) ↔
        0 < Savior.ref_count_of (Savior.run_ops Savior.empty_store ops) h) ∧
      Savior.ref_count_of (Savior.run_ops Savior.empty_store ops) h =
        (Savior.citing_refs (Savior.run_ops Savior.empty_store ops) h).length ∧
      (Savior.citing_refs (Savior.run_ops Savior.empty_store ops) h).Nodup) ∧
    (∀ h n ids, ids ≠ ([] : List String) → ids.Nodup →
      Savior.ref_count_of (Savior.run_ops Savior.empty_store
          (ids.map fun i => Savior.DedupOp.store h n i)) h = ids.length ∧
      (Savior.run_ops Savior.empty_store
          (ids.map fun i => Savior.DedupOp.store h n i)).disk = [h]) ∧
    (∀ h i, Savior.ref_count_of (Savior.run_ops Savior.empty_store ops) h = 1 →
      i ∈ Savior.citing_refs (Savior.run_ops Savior.empty_store ops) h →
      Savior.lookupStr
          (Savior.remove_reference
            (Savior.run_ops Savior.empty_store ops) h i).1.index h = none ∧
      h ∉ (Savior.remove_reference
            (Savior.run_ops Savior.empty_store ops) h i).1.disk) := by
  obtain ⟨hdisk, hiff, hent⟩ :=
    Savior.run_ops_WF_from ops Savior.empty_store Savior.empty_store_WF
  refine ⟨?_, ?_, ?_⟩
  · intro h
    cases hlk : Savior.lookupStr (Savior.run_ops Savior.empty_store ops).index h with
    | none =>
      have hrc : Savior.ref_count_of (Savior.run_ops Savior.empty_store ops) h = 0 := by
        unfold Savior.ref_count_of
        rw [hlk]
      have hcr : Savior.citing_refs (Savior.run_ops Savior.empty_store ops) h = [] := by
        unfold Savior.citing_refs
        rw [hlk]
      have hmem := hiff h
      rw [hlk] at hmem
      rw [hrc, hcr]
      refine ⟨?_, rfl, List.nodup_nil⟩
      constructor
      · intro hin
        exact absurd (hmem.1 hin) (by simp)
      · intro hlt
        exact absurd hlt (by simp)
    | some e =>
      obtain ⟨hne, hnd, hcnt⟩ := hent h e hlk
      have hrc : Savior.ref_count_of (Savior.run_ops Savior.empty_store ops) h =
          e.ref_count := by
        unfold Savior.ref_count_of
        rw [hlk]
      have hcr : Savior.citing_refs (Savior.run_ops Savior.empty_store ops) h =
          e.refs := by
        unfold Savior.citing_refs
        rw [hlk]
      have hmem := hiff h
      rw [hlk] at hmem
      rw [hrc, hcr, hcnt]
      exact ⟨iff_of_true (hmem.2 (by simp)) (List.length_pos.2 hne), rfl, hnd⟩
  · intro h n ids hne hnd
    cases ids with
    | nil => exact absurd rfl hne
    | cons i rest =>
      simp only [List.map_cons, Savior.run_ops, Savior.apply_op]
      have hfirst : Savior.store_file Savior.empty_store h n i =
          ⟨[(h, ⟨n, [i], 1⟩)], [h]⟩ := by
        rw [Savior.store_file_lookup_none Savior.empty_store h n i rfl]
        simp [Savior.empty_store, List.insert]
      rw [hfirst]
      have hrest := Savior.run_stores_from_entry h n rest [i]
        (by simp)
        (fun j hj => by
          simp only [List.mem_singleton]
          intro hji
          rw [List.nodup_cons] at hnd
          exact hnd.1 (hji ▸ hj))
        (List.nodup_cons.1 hnd).2
      refine ⟨?_, hrest.2⟩
      have h2 : Savior.ref_count_of (Savior.run_ops ⟨[(h, ⟨n, [i], 1⟩)], [h]⟩
          (rest.map fun j => Savior.DedupOp.store h n j)) h =
          ([i] : List String).length + rest.length := hrest.1
      rw [h2]
      simp only [List.length_cons, List.length_nil]
      omega
  · intro h i hcnt1 hcit
    cases hlk : Savior.lookupStr (Savior.run_ops Savior.empty_store ops).index h with
    | none =>
      have hrc : Savior.ref_count_of (Savior.run_ops Savior.empty_store ops) h = 0 := by
        unfold Savior.ref_count_of
        rw [hlk]
      rw [hrc] at hcnt1
      cases hcnt1
    | some e =>
      obtain ⟨hne, hnd, hcnt⟩ := hent h e hlk
      have hrc : Savior.ref_count_of (Savior.run_ops Savior.empty_store ops) h =
          e.ref_count := by
        unfold Savior.ref_count_of
        rw [hlk]
      have hcr : Savior.citing_refs (Savior.run_ops Savior.empty_store ops) h =
          e.refs := by
        unfold Savior.citing_refs
        rw [hlk]
      rw [hrc] at hcnt1
      rw [hcr] at hcit
      have hlen1 : e.refs.length = 1 := by rw [← hcnt]; exact hcnt1
      obtain ⟨a, ha⟩ := List.length_eq_one.1 hlen1
      have hia : i = a := by
        rw [ha] at hcit
        simpa using hcit
      subst hia
      rw [Savior.remove_reference_lookup_some _ h i e hlk,
        Savior.remove_reference_entry_eq]
      have hz : ((e.refs.dedup).erase i).length = 0 := by
        rw [ha]
        simp
      rw [if_pos hz]
      refine ⟨?_, ?_⟩
      · show Savior.lookupStr
          (Savior.removeStr (Savior.run_ops Savior.empty_store ops).index h) h = none
        exact Savior.lookupStr_removeStr_self _ h
      · show h ∉ (Savior.run_ops Savior.empty_store ops).disk.erase h
        intro hmem
        rw [hdisk.mem_erase_iff] at hmem
        exact hmem.1 rfl

/-- Witness for C2: the theorem's N-distinct-stores clause applied at a
concrete hash, size and two backup ids. -/
theorem C2_refcount_invariant_witness :
    Savior.ref_count_of (Savior.run_ops Savior.empty_store
        (["b1", "b2"].map fun i => Savior.DedupOp.store "h1" 5 i)) "h1" =
      (["b1", "b2"] : List String).length ∧
    (Savior.run_ops Savior.empty_store
        (["b1", "b2"].map fun i => Savior.DedupOp.store "h1" 5 i)).disk = ["h1"] :=
  (C2_refcount_invariant []).2.1 "h1" 5 ["b1", "b2"] (by decide) (by decide)

/-- Witness for C4: the amended theorem applied at a concrete
single-backup list. -/
theorem C4_retention_tiers_witness :
    (⟨1, 50, 0, 1⟩ : Savior.BackupRec) ∈
        Savior.cleanup_old_backups [⟨1, 50, 0, 1⟩] 100 ↔
      (⟨1, 50, 0, 1⟩ : Savior.BackupRec) ∈ Savior.recentTen [⟨1, 50, 0, 1⟩] ∨
      ((⟨1, 50, 0, 1⟩ : Savior.BackupRec) ∈ [(⟨1, 50, 0, 1⟩ : Savior.BackupRec)] ∧
        (⟨1, 50, 0, 1⟩ : Savior.BackupRec).path ∉
          (Savior.recentTen [⟨1, 50, 0, 1⟩]).map (fun x => x.path) ∧
        Savior.keepTier 100 ⟨1, 50, 0, 1⟩ = true) :=
  C4_retention_tiers [⟨1, 50, 0, 1⟩] 100 (by decide) ⟨1, 50, 0, 1⟩
